import Mathlib

/-!
Verification of the plan-normalizer / plan-store / request-adapter core of
the repository.

The source is TypeScript running on a JavaScript engine; we shallowly embed
the JavaScript values the code manipulates as the inductive `Value`.
JavaScript numbers are embedded as integers plus the special values
`NaN`, `Infinity`, `-Infinity` (the claims under study only exercise
integer-valued arithmetic: finiteness tests, sign tests and `parseInt`).
`JSON.parse` is an engine primitive, so a string value carries the result
that `JSON.parse` would produce on it (`none` meaning a `SyntaxError`);
the normalizers and the interceptor only ever consume that result, never
the grammar itself.  Code that can throw a `TypeError` (property access on
`null`/`undefined`) is embedded in the `Option` monad, `none` meaning an
exception escaped; the normalizers guard every access behind `asRecord`,
so they are embedded as plain total functions — they have no exception
channel at all, which is the formal content of "never throws".
-/

namespace Rag

/-- Embedded JavaScript number: an integer, a (by convention
non-integral) finite rational — the source leaves numeric fields such as
an index of `2.5` unvalidated, so these values must be representable —
or one of the non-finite values. -/
inductive JsNum where
  | int (i : Int)
  | frac (q : ℚ)
  | nan
  | inf
  | ninf
deriving DecidableEq

/-- Embedded JavaScript value.  A string carries the value `JSON.parse`
would yield on it (`none` = parse failure). -/
inductive Value where
  | vundefined : Value
  | vnull : Value
  | vbool : Bool → Value
  | vnum : JsNum → Value
  | vstr : String → Option Value → Value
  | varr : List Value → Value
  | vobj : List (String × Value) → Value

/-- A string literal appearing in the program text (its `JSON.parse`
behaviour is irrelevant, the program never re-parses constructed strings). -/
def mkStr (s : String) : Value := .vstr s none

/-- JavaScript truthiness. -/
def jsTruthy : Value → Bool
  | .vundefined => false
  | .vnull => false
  | .vbool b => b
  | .vnum (.int i) => i != 0
  | .vnum (.frac q) => q != 0
  | .vnum .nan => false
  | .vnum .inf => true
  | .vnum .ninf => true
  | .vstr s _ => s != ""
  | .varr _ => true
  | .vobj _ => true

/-- First-occurrence lookup in an object's field list (a run-time
JavaScript object has no duplicate keys). -/
def lookupField : List (String × Value) → String → Value
  | [], _ => .vundefined
  | (k, v) :: rest, key => if k == key then v else lookupField rest key

/-- Property access on a non-nullish value (`null`/`undefined` receivers
are handled by `jsGet`). -/
def getProp : Value → String → Value
  | .vobj fs, key => lookupField fs key
  | .varr xs, key => if key == "length" then .vnum (.int xs.length) else .vundefined
  | .vstr s _, key => if key == "length" then .vnum (.int s.length) else .vundefined
  | _, _ => .vundefined

/-- Property access; `none` embeds the `TypeError` thrown on a
`null`/`undefined` receiver. -/
def jsGet (v : Value) (key : String) : Option Value :=
  match v with
  | .vnull => none
  | .vundefined => none
  | _ => some (getProp v key)

/-- Optional-chaining access `v?.key`: nullish receiver yields `undefined`. -/
def optChain (v : Value) (key : String) : Value :=
  match v with
  | .vnull => .vundefined
  | .vundefined => .vundefined
  | _ => getProp v key

/-- Strict equality of a value against a string literal (`v === "s"`). -/
def jsStrEq (v : Value) (s : String) : Bool :=
  match v with
  | .vstr t _ => t == s
  | _ => false

/-- The pattern `typeof v === "string" ? v : null`. -/
def asString : Value → Option String
  | .vstr s _ => some s
  | _ => none

/-- The nullish-coalescing operator `v ?? dflt`. -/
def nullishOr (v : Value) (dflt : Value) : Value :=
  match v with
  | .vundefined => dflt
  | .vnull => dflt
  | v => v

mutual

/-- The `String(v)` conversion for the value kinds the code feeds to it.
A non-integral finite number prints its rational notation, an
approximation of ECMAScript float formatting that no claim exercises
(`String` is only ever applied to non-number index fields). -/
def jsToString : Value → String
  | .vundefined => "undefined"
  | .vnull => "null"
  | .vbool true => "true"
  | .vbool false => "false"
  | .vnum (.int i) => toString i
  | .vnum (.frac q) => toString q
  | .vnum .nan => "NaN"
  | .vnum .inf => "Infinity"
  | .vnum .ninf => "-Infinity"
  | .vstr s _ => s
  | .varr xs => jsArrayToString xs
  | .vobj _ => "[object Object]"

/-- `Array.prototype.toString`: elements joined with a comma. -/
def jsArrayToString : List Value → String
  | [] => ""
  | [x] => jsJoinElem x
  | x :: y :: rest => jsJoinElem x ++ "," ++ jsArrayToString (y :: rest)

/-- Element conversion inside `Array.prototype.join`: nullish elements
become empty text. -/
def jsJoinElem : Value → String
  | .vnull => ""
  | .vundefined => ""
  | v => jsToString v

end

/-- The no-annotation string constructor converts to its own text. -/
theorem jsToString_vstr (s : String) (p : Option Value) : jsToString (.vstr s p) = s := by
  simp [jsToString]

/-- Value of a decimal-digit list. -/
def digitsVal (ds : List Char) : Nat :=
  ds.foldl (fun acc c => 10 * acc + (c.toNat - '0'.toNat)) 0

/-- `Number.parseInt(s, 10)`: skip leading whitespace, optional sign,
longest run of decimal digits; `NaN` when no digit is found. -/
def jsParseInt (s : String) : JsNum :=
  let cs := s.data.dropWhile (fun c => c == ' ' || c == '\t' || c == '\n' || c == '\r')
  match cs with
  | '-' :: rest =>
    let ds := rest.takeWhile Char.isDigit
    if ds.isEmpty then .nan else .int (-(digitsVal ds : Int))
  | '+' :: rest =>
    let ds := rest.takeWhile Char.isDigit
    if ds.isEmpty then .nan else .int (digitsVal ds : Int)
  | cs =>
    let ds := cs.takeWhile Char.isDigit
    if ds.isEmpty then .nan else .int (digitsVal ds : Int)

/-- `Number.isFinite` on an embedded number. -/
def jsNumFinite : JsNum → Bool
  | .int _ => true
  | .frac _ => true
  | _ => false

/-- The test `n < 0` on an embedded number. -/
def jsNumNeg : JsNum → Bool
  | .int i => decide (i < 0)
  | .frac q => decide (q < 0)
  | .ninf => true
  | _ => false

/-- The rational value of a finite embedded number (the non-finite cases
are unreachable behind the `Number.isFinite` guard that precedes every
use). -/
def jsNumVal : JsNum → ℚ
  | .int i => (i : ℚ)
  | .frac q => q
  | _ => 0

/-! ## Result normalizer (source: the plan tool-UI module) -/

inductive StepStatus where
  | pending
  | completed
deriving DecidableEq

structure PlanStep where
  description : String
  status : StepStatus
deriving DecidableEq

structure Plan where
  steps : List PlanStep
deriving DecidableEq

/-- `asRecord`: unwrap stringified JSON (recursively — a parsed string is
parsed again), then keep the value only if it is a non-null `object`
(JavaScript arrays included); everything else resolves to `null`. -/
def asRecord : Value → Option Value
  | .vstr _ (some v) => asRecord v
  | .vstr _ none => none
  | .vobj fs => some (.vobj fs)
  | .varr xs => some (.varr xs)
  | _ => none

/-- `normalizeStep`: require a non-empty string `description`; `status`
is `completed` only on the exact string `"completed"`, else `pending`. -/
def normalizeStep (value : Value) : Option PlanStep :=
  match asRecord value with
  | none => none
  | some record =>
    let description := asString (getProp record "description")
    let status : StepStatus :=
      if jsStrEq (getProp record "status") "completed" then .completed else .pending
    match description with
    | none => none
    | some d => if d == "" then none else some ⟨d, status⟩

/-- The accumulation loop of `normalizePlan`: normalize each entry,
pushing the successes in order. -/
def collectSteps : List Value → List PlanStep
  | [] => []
  | s :: rest =>
    match normalizeStep s with
    | some n => n :: collectSteps rest
    | none => collectSteps rest

/-- `normalizePlan`: a non-array `steps` field counts as empty; an empty
source or an all-rejected source yields no plan. -/
def normalizePlan (value : Value) : Option Plan :=
  match asRecord value with
  | none => none
  | some record =>
    let stepsSource : List Value :=
      match getProp record "steps" with
      | .varr xs => xs
      | _ => []
    if stepsSource.isEmpty then none
    else
      let steps := collectSteps stepsSource
      if steps.isEmpty then none else some ⟨steps⟩

/-- `normalizeCreateResult`: prefer a truthy nested `plan` field, else
normalize the record itself. -/
def normalizeCreateResult (value : Value) : Option Plan :=
  match asRecord value with
  | none => none
  | some record =>
    if jsTruthy (getProp record "plan") then normalizePlan (getProp record "plan")
    else normalizePlan record

/-- The store's update parameter (the provider declares it inline): the
spec's PlanUpdate, whose data model makes `index` a (possibly negative,
guard-checked) integer.  The store claims quantify over these. -/
structure PlanUpdate where
  index : Int
  description : Option String
  status : Option StepStatus
deriving DecidableEq

/-- The tool-result type `UpdatePlanResult`: its `index` is an arbitrary
finite JavaScript number — the source takes a numeric field as-is without
an integrality check, so a non-integer such as `2.5` can appear here. -/
structure UpdatePlanResult where
  index : ℚ
  description : Option String
  status : Option StepStatus
deriving DecidableEq

/-- The index computation of `normalizeUpdateResult`:
`typeof raw === "number" ? raw : Number.parseInt(String(raw ?? "-1"), 10)`.
A numeric field passes through unchanged (integral or not); anything else
is converted to text and parsed as an integer. -/
def computeIndex (record : Value) : JsNum :=
  match getProp record "index" with
  | .vnum n => n
  | other => jsParseInt (jsToString (nullishOr other (mkStr "-1")))

/-- `normalizeUpdateResult`: reject non-records and non-finite or negative
indices, keeping the index value itself otherwise; copy `description` only
when it is a string, `status` only on the exact strings `"completed"` /
`"pending"`. -/
def normalizeUpdateResult (value : Value) : Option UpdatePlanResult :=
  match asRecord value with
  | none => none
  | some record =>
    let index := computeIndex record
    if !jsNumFinite index || jsNumNeg index then none
    else
      some
        { index := jsNumVal index
          description := asString (getProp record "description")
          status :=
            if jsStrEq (getProp record "status") "completed" then some .completed
            else if jsStrEq (getProp record "status") "pending" then some .pending
            else none }

/-! ## Plan store (source: `updateStep` inside the provider) -/

/-- `updateStep`, the store updater: with no plan or an out-of-range index
it returns the previous state itself; otherwise it rebuilds the step list,
patching only the step at `update.index`. -/
def updateStep (update : PlanUpdate) (prev : Option Plan) : Option Plan :=
  match prev with
  | none => none
  | some p =>
    if update.index < 0 || (p.steps.length : Int) ≤ update.index then some p
    else
      some ⟨p.steps.mapIdx (fun idx step =>
        if (idx : Int) ≠ update.index then step
        else ⟨update.description.getD step.description, update.status.getD step.status⟩)⟩

/-! ## Request adapter (source: `transformRequestToBackendFormat`) -/

/-- An incoming message of the generic runtime shape.  Content parts are
arbitrary JavaScript objects (the interface allows extra keys on them),
and `content` may be absent — the source guards it with `?.` / `|| []`. -/
structure AssistantUIMessage where
  role : String
  content : Option (List Value)

/-- The generic request shape the adapter consumes: the two fields the
transform reads.  Both may be absent; `tools` is an arbitrary value
(object, array, or anything else — the source type-tests it). -/
structure AssistantUIRequest where
  messages : Option (List AssistantUIMessage)
  tools : Option Value

structure BackendTool where
  name : Value
  description : Value
  parameters : Value

structure BackendMessage where
  role : String
  content : List Value

structure BackendChatRequest where
  system : String
  tools : List BackendTool
  messages : List BackendMessage

/-- Per-part mapping of a kept message: a text-typed part is rebuilt as
`(type := "text", text := part.text || "")`; any other part is returned as
is.  `none` embeds a thrown `TypeError` (nullish part). -/
def transformContentPart (part : Value) : Option Value := do
  let ty ← jsGet part "type"
  if jsStrEq ty "text" then do
    let t ← jsGet part "text"
    pure (.vobj [("type", mkStr "text"), ("text", if jsTruthy t then t else mkStr "")])
  else
    pure part

/-- The `.map(transformContentPart)` over a kept message's parts. -/
def mapParts : List Value → Option (List Value)
  | [] => some []
  | p :: rest => do
    let p' ← transformContentPart p
    let tail ← mapParts rest
    pure (p' :: tail)

/-- The `.filter((part) => part.type === "text")` pass over a system
message's parts. -/
def filterTextParts : List Value → Option (List Value)
  | [] => some []
  | p :: rest => do
    let ty ← jsGet p "type"
    let tail ← filterTextParts rest
    pure (if jsStrEq ty "text" then p :: tail else tail)

/-- The `.map((part) => part.text || "")` pass, already converted to text
as `Array.prototype.join` would. -/
def mapTextOfParts : List Value → Option (List String)
  | [] => some []
  | p :: rest => do
    let t ← jsGet p "text"
    let tail ← mapTextOfParts rest
    pure (jsToString (if jsTruthy t then t else mkStr "") :: tail)

/-- The extraction
`msg.content?.filter(text).map(text || "").join("") || ""`. -/
def systemContentOf (content : Option (List Value)) : Option String :=
  match content with
  | none => some ""
  | some parts => do
    let tps ← filterTextParts parts
    let texts ← mapTextOfParts tps
    pure (String.join texts)

/-- The message loop of the transform: system-role messages update the
running system text when their extracted content is non-empty; user and
assistant messages are mapped and appended; other roles are skipped. -/
def transformLoop : List AssistantUIMessage → String → List BackendMessage →
    Option (String × List BackendMessage)
  | [], system, acc => some (system, acc)
  | msg :: rest, system, acc =>
    if msg.role == "system" then do
      let sc ← systemContentOf msg.content
      transformLoop rest (if sc == "" then system else sc) acc
    else if msg.role == "user" || msg.role == "assistant" then do
      let parts ← mapParts (msg.content.getD [])
      transformLoop rest system (acc ++ [⟨msg.role, parts⟩])
    else
      transformLoop rest system acc

/-- Array-entry tool mapping:
`(name := tool.name || tool, description := tool.description,
parameters := tool.parameters || \x7b\x7d)`. -/
def transformTool (tool : Value) : Option BackendTool := do
  let n ← jsGet tool "name"
  let d ← jsGet tool "description"
  let ps ← jsGet tool "parameters"
  pure ⟨if jsTruthy n then n else tool, d, if jsTruthy ps then ps else .vobj []⟩

/-- The `.map(transformTool)` over an array-shaped `tools` input. -/
def mapTools : List Value → Option (List BackendTool)
  | [] => some []
  | t :: rest => do
    let t' ← transformTool t
    let tail ← mapTools rest
    pure (t' :: tail)

/-- Object-entry tool mapping over `Object.entries`:
`(name := key, description := tool?.description,
parameters := tool?.parameters || \x7b\x7d)`. -/
def entryTool (kv : String × Value) : BackendTool :=
  ⟨mkStr kv.1, optChain kv.2 "description",
    if jsTruthy (optChain kv.2 "parameters") then optChain kv.2 "parameters" else .vobj []⟩

/-- The tools section of the transform: falsy, empty-array and
zero-key-object inputs all yield the empty list; a non-empty array maps
entry-wise (possibly throwing on nullish entries); a non-empty object maps
over its entries. -/
def transformTools : Option Value → Option (List BackendTool)
  | none => some []
  | some tv =>
    if !jsTruthy tv then some []
    else
      match tv with
      | .varr es => if 0 < es.length then mapTools es else some []
      | .vobj fields => if 0 < fields.length then some (fields.map entryTool) else some []
      | _ => some []

/-- `transformRequestToBackendFormat`: system text seeded from the
optional override (`systemMessage || ""`), then the message loop, then the
tools mapping. -/
def transformRequestToBackendFormat (request : AssistantUIRequest)
    (systemMessage : Option String) : Option BackendChatRequest := do
  let (system, messages) ← transformLoop (request.messages.getD []) (systemMessage.getD "") []
  let tools ← transformTools request.tools
  pure ⟨system, tools, messages⟩

/-! ## Fetch interceptor (source: `createFetchInterceptor`) -/

/-- The first argument of a network call: a URL string, a URL object, or
anything else (which the source maps to the empty URL). -/
inductive FetchInput where
  | str (s : String)
  | url (s : String)
  | other

/-- The URL extraction at the top of the wrapper. -/
def inputUrl : FetchInput → String
  | .str s => s
  | .url s => s
  | .other => ""

/-- A request body: a string (carrying the request `JSON.parse` would
yield on it, `none` meaning a parse error), form data, or an already
structured object. -/
inductive BodyVal where
  | bstr (s : String) (parsed : Option AssistantUIRequest)
  | formData
  | bobj (request : AssistantUIRequest)

structure RequestInit where
  method : Option String
  body : Option BodyVal
  headers : Option (List (String × String))

/-- The body of the forwarded call: either the JSON serialization of a
transformed request, or the original body passed through. -/
inductive OutBody where
  | jsonStringified (b : BackendChatRequest)
  | passthrough (b : Option BodyVal)

/-- The call the wrapper hands to the captured original fetch. -/
structure ForwardedCall where
  input : FetchInput
  method : Option String
  body : OutBody
  headers : Option (List (String × String))

/-- Object-spread update of a string-keyed record: an existing key keeps
its position but its value is overwritten, a new key is appended. -/
def objInsert : List (String × String) → String → String → List (String × String)
  | [], k, v => [(k, v)]
  | (a, b) :: rest, k, v =>
    if a == k then (k, v) :: rest
    else (a, b) :: objInsert rest k v

/-- `(base, over)` spread merge: every entry of `over` inserted into
`base` in order, later entries winning. -/
def objSpread (base over : List (String × String)) : List (String × String) :=
  over.foldl (fun acc p => objInsert acc p.1 p.2) base

/-- The header object built by the wrapper:
`("Content-Type" json), ...configured, ...original`. -/
def mergedHeaders (cfg : List (String × String)) (orig : Option (List (String × String))) :
    List (String × String) :=
  objSpread (objSpread [("Content-Type", "application/json")] cfg) (orig.getD [])

/-- Does the character list start with the given pattern. -/
def listStartsWith : List Char → List Char → Bool
  | _, [] => true
  | [], _ :: _ => false
  | c :: cs, d :: ds => c == d && listStartsWith cs ds

/-- Does the pattern occur anywhere in the character list. -/
def containsSeq : List Char → List Char → Bool
  | [], p => p.isEmpty
  | c :: rest, p => listStartsWith (c :: rest) p || containsSeq rest p

/-- `String.prototype.includes`. -/
def jsIncludes (s sub : String) : Bool :=
  containsSeq s.data sub.data

/-- The success branch of the wrapper: transformed JSON body and merged
headers. -/
def rewrittenCall (input : FetchInput) (i : RequestInit) (cfg : List (String × String))
    (b : BackendChatRequest) : ForwardedCall :=
  ⟨input, i.method, .jsonStringified b, some (mergedHeaders cfg i.headers)⟩

/-- The catch branch of the wrapper: original body, merged headers. -/
def fallbackCall (input : FetchInput) (i : RequestInit) (cfg : List (String × String)) :
    ForwardedCall :=
  ⟨input, i.method, .passthrough i.body, some (mergedHeaders cfg i.headers)⟩

/-- Transform-or-fallback on a parsed body. -/
def transformOrFallback (input : FetchInput) (i : RequestInit) (cfg : List (String × String))
    (sys : Option String) (req : AssistantUIRequest) : ForwardedCall :=
  match transformRequestToBackendFormat req sys with
  | some b => rewrittenCall input i cfg b
  | none => fallbackCall input i cfg

/-- The call behaviour of the installed wrapper: only a POST to a URL
containing the configured endpoint is rewritten; form-data bodies and
non-matching calls pass through untouched; a body that fails to parse or
to transform falls back to the original body with merged headers.  An
absent or empty-string body is falsy, so the transform runs on the empty
record. -/
def interceptedFetch (apiEndpoint : String) (cfgHeaders : List (String × String))
    (systemMessage : Option String) (input : FetchInput) (init : Option RequestInit) :
    ForwardedCall :=
  match init with
  | none => ⟨input, none, .passthrough none, none⟩
  | some i =>
    if i.method == some "POST" && jsIncludes (inputUrl input) apiEndpoint then
      match i.body with
      | some .formData => ⟨input, i.method, .passthrough i.body, i.headers⟩
      | some (.bstr s parsed) =>
        if s == "" then transformOrFallback input i cfgHeaders systemMessage ⟨none, none⟩
        else
          match parsed with
          | none => fallbackCall input i cfgHeaders
          | some req => transformOrFallback input i cfgHeaders systemMessage req
      | some (.bobj req) => transformOrFallback input i cfgHeaders systemMessage req
      | none => transformOrFallback input i cfgHeaders systemMessage ⟨none, none⟩
    else ⟨input, i.method, .passthrough i.body, i.headers⟩

/-- A fetch function, symbolically: either one of the ambient functions or
a wrapper installed by the interceptor over a captured inner function. -/
inductive FetchFn where
  | base (id : Nat)
  | wrapper (original : FetchFn) (apiEndpoint : String)
      (headers : List (String × String)) (systemMessage : Option String)
deriving DecidableEq

/-- The global object, reduced to the one binding the source mutates. -/
structure Window where
  fetch : FetchFn
deriving DecidableEq

/-- `createFetchInterceptor`: capture `window.fetch`, install the wrapper,
and return the new global state together with the cleanup function, which
writes the captured function back whatever the state at restore time. -/
def createFetchInterceptor (apiEndpoint : String) (headers : List (String × String))
    (systemMessage : Option String) (w : Window) : Window × (Window → Window) :=
  let originalFetch := w.fetch
  (⟨.wrapper originalFetch apiEndpoint headers systemMessage⟩,
   fun w2 => { w2 with fetch := originalFetch })

/-! ## Helper lemmas -/

/-- A payload wrapped in `n` levels of JSON string encoding: each listed
string parses to the next layer. -/
def wrapJson : List String → Value → Value
  | [], v => v
  | s :: rest, v => .vstr s (some (wrapJson rest v))

theorem asRecord_wrapJson (ss : List String) (v : Value) :
    asRecord (wrapJson ss v) = asRecord v := by
  induction ss with
  | nil => rfl
  | cons s rest ih => simp [wrapJson, asRecord, ih]

theorem collectSteps_eq_filterMap (l : List Value) :
    collectSteps l = l.filterMap normalizeStep := by
  induction l with
  | nil => rfl
  | cons x xs ih => cases h : normalizeStep x <;> simp [collectSteps, h, ih]

/-- The extracted text of each system-role message, in input order
(`none` when an extraction throws). -/
def sysTextsOf : List AssistantUIMessage → Option (List String)
  | [] => some []
  | m :: rest =>
    if m.role == "system" then do
      let sc ← systemContentOf m.content
      let r ← sysTextsOf rest
      pure (sc :: r)
    else sysTextsOf rest

/-- The last non-empty string of the list, or the default when none. -/
def lastNonEmptyD : List String → String → String
  | [], d => d
  | t :: ts, d => lastNonEmptyD ts (if t == "" then d else t)

theorem lastNonEmptyD_cons (t : String) (ts : List String) (d : String) :
    lastNonEmptyD (t :: ts) d = lastNonEmptyD ts (if t == "" then d else t) := rfl

/-- `lastNonEmptyD` really is the last non-empty element, or the default
when every element is empty. -/
theorem lastNonEmptyD_eq_getLastD (ts : List String) (d : String) :
    lastNonEmptyD ts d = (ts.filter (fun t => t != "")).getLastD d := by
  induction ts generalizing d with
  | nil => rfl
  | cons t ts ih =>
    rw [lastNonEmptyD_cons, ih, List.filter_cons]
    by_cases h : t = ""
    · subst h
      simp
    · rw [if_neg (by simp [h]), if_pos (by simp [h])]
      exact (List.getLastD_cons d t _).symm

theorem transformLoop_system (msgs : List AssistantUIMessage) :
    ∀ (system : String) (acc : List BackendMessage) (out : String × List BackendMessage),
      transformLoop msgs system acc = some out →
      ∃ texts, sysTextsOf msgs = some texts ∧ out.1 = lastNonEmptyD texts system := by
  induction msgs with
  | nil =>
    intro system acc out h
    injection h with h
    subst h
    exact ⟨[], rfl, rfl⟩
  | cons m rest ih =>
    intro system acc out h
    cases hsys : (m.role == "system")
    · cases hua : (m.role == "user" || m.role == "assistant")
      · simp only [transformLoop, hsys, hua, if_false, Bool.false_eq_true] at h
        obtain ⟨texts, htx, hout⟩ := ih system acc out h
        exact ⟨texts, by simp [sysTextsOf, hsys, htx], hout⟩
      · simp only [transformLoop, hsys, hua, if_false, if_true, Bool.false_eq_true] at h
        cases hp : mapParts (m.content.getD []) <;> rw [hp] at h
        · exact Option.noConfusion h
        · obtain ⟨texts, htx, hout⟩ := ih system _ out h
          exact ⟨texts, by simp [sysTextsOf, hsys, htx], hout⟩
    · simp only [transformLoop, hsys, if_true] at h
      cases hsc : systemContentOf m.content <;> rw [hsc] at h
      · exact Option.noConfusion h
      · rename_i sc
        obtain ⟨texts, htx, hout⟩ := ih _ acc out h
        refine ⟨sc :: texts, by simp [sysTextsOf, hsys, hsc, htx], ?_⟩
        rw [hout, lastNonEmptyD_cons]

/-- The kept part of the output message list: input messages with role
`user` or `assistant`, in order, their parts mapped through
`transformContentPart`. -/
def keptMessages : List AssistantUIMessage → Option (List BackendMessage)
  | [] => some []
  | m :: rest =>
    if m.role == "user" || m.role == "assistant" then do
      let parts ← mapParts (m.content.getD [])
      let r ← keptMessages rest
      pure (⟨m.role, parts⟩ :: r)
    else keptMessages rest

theorem transformLoop_messages (msgs : List AssistantUIMessage) :
    ∀ (system : String) (acc : List BackendMessage) (out : String × List BackendMessage),
      transformLoop msgs system acc = some out →
      ∃ tail, keptMessages msgs = some tail ∧ out.2 = acc ++ tail := by
  induction msgs with
  | nil =>
    intro s acc out h
    injection h with h
    subst h
    exact ⟨[], rfl, (List.append_nil acc).symm⟩
  | cons m rest ih =>
    intro s acc out h
    cases hsys : (m.role == "system")
    · cases hua : (m.role == "user" || m.role == "assistant")
      · simp only [transformLoop, hsys, hua, Bool.false_eq_true, if_false] at h
        obtain ⟨tail, hk, ho⟩ := ih _ _ _ h
        exact ⟨tail, by simp [keptMessages, hua, hk], ho⟩
      · simp only [transformLoop, hsys, hua, Bool.false_eq_true, if_false, if_true] at h
        cases hp : mapParts (m.content.getD []) <;> rw [hp] at h
        · exact Option.noConfusion h
        · rename_i parts
          obtain ⟨tail, hk, ho⟩ := ih _ _ _ h
          refine ⟨⟨m.role, parts⟩ :: tail, ?_, ?_⟩
          · simp [keptMessages, hua, hp, hk]
          · rw [ho]
            simp
    · simp only [transformLoop, hsys, if_true] at h
      cases hsc : systemContentOf m.content <;> rw [hsc] at h
      · exact Option.noConfusion h
      · obtain ⟨tail, hk, ho⟩ := ih _ _ _ h
        refine ⟨tail, ?_, ho⟩
        have hrole : m.role = "system" := by simpa using hsys
        simp [keptMessages, hrole, hk]

theorem keptMessages_roles (msgs : List AssistantUIMessage) :
    ∀ l, keptMessages msgs = some l →
      l.map BackendMessage.role =
        (msgs.filter (fun m => m.role == "user" || m.role == "assistant")).map
          AssistantUIMessage.role := by
  induction msgs with
  | nil =>
    intro l h
    injection h with h
    subst h
    rfl
  | cons m rest ih =>
    intro l h
    cases hua : (m.role == "user" || m.role == "assistant")
    · simp only [keptMessages, hua, Bool.false_eq_true, if_false] at h
      rw [List.filter_cons, if_neg (by simp [hua])]
      exact ih l h
    · simp only [keptMessages, hua, if_true] at h
      cases hp : mapParts (m.content.getD []) <;> rw [hp] at h
      · exact Option.noConfusion h
      · cases hk : keptMessages rest <;> rw [hk] at h
        · exact Option.noConfusion h
        · rename_i parts tail
          injection h with h
          subst h
          rw [List.filter_cons, if_pos (by simp [hua])]
          simp [ih tail hk]

/-- First-occurrence lookup in a header object (run-time objects have no
duplicate keys, so this is the object's value at the key). -/
def headerLookup : List (String × String) → String → Option String
  | [], _ => none
  | (k, v) :: rest, key => if k == key then some v else headerLookup rest key

theorem headerLookup_append (l1 l2 : List (String × String)) (k : String) :
    headerLookup (l1 ++ l2) k =
      (match headerLookup l1 k with
       | some v => some v
       | none => headerLookup l2 k) := by
  induction l1 with
  | nil => rfl
  | cons p rest ih =>
    obtain ⟨a, b⟩ := p
    cases hak : (a == k) <;> simp [headerLookup, hak, ih]

theorem headerLookup_objInsert (m : List (String × String)) (k v k' : String) :
    headerLookup (objInsert m k v) k' = if k == k' then some v else headerLookup m k' := by
  induction m with
  | nil =>
    cases hkk : (k == k') <;> simp [objInsert, headerLookup, hkk]
  | cons p rest ih =>
    obtain ⟨a, b⟩ := p
    by_cases hak : (a == k) = true
    · have ha : a = k := by simpa using hak
      subst ha
      simp only [objInsert, hak, if_true]
      cases hkk : (a == k') <;> simp [headerLookup, hkk]
    · have hf : (a == k) = false := by simpa using hak
      simp only [objInsert, hf, Bool.false_eq_true, if_false]
      by_cases hkk : (k == k') = true
      · have he : k = k' := by simpa using hkk
        subst he
        have hne : (a == k) = false := hf
        simp [headerLookup, hne, ih, hkk]
      · have hne : (k == k') = false := by simpa using hkk
        cases hart : (a == k') <;> simp [headerLookup, hart, ih, hne]

theorem headerLookup_objSpread (over : List (String × String)) :
    ∀ (base : List (String × String)) (k : String),
      headerLookup (objSpread base over) k =
        (match headerLookup over.reverse k with
         | some v => some v
         | none => headerLookup base k) := by
  induction over with
  | nil =>
    intro base k
    rfl
  | cons p rest ih =>
    intro base k
    obtain ⟨a, b⟩ := p
    show headerLookup (objSpread (objInsert base a b) rest) k = _
    rw [ih, List.reverse_cons, headerLookup_append]
    cases hm : headerLookup rest.reverse k
    · rw [headerLookup_objInsert]
      by_cases hak : (a == k) = true
      · simp [headerLookup, hak]
      · have hf : (a == k) = false := by simpa using hak
        simp [headerLookup, hf]
    · simp

theorem mergedHeaders_orig_wins (cfg : List (String × String))
    (orig : Option (List (String × String))) (k v : String)
    (h : headerLookup (orig.getD []).reverse k = some v) :
    headerLookup (mergedHeaders cfg orig) k = some v := by
  unfold mergedHeaders
  rw [headerLookup_objSpread, h]

theorem mergedHeaders_ct_default (cfg : List (String × String))
    (orig : Option (List (String × String)))
    (h1 : headerLookup (orig.getD []).reverse "Content-Type" = none)
    (h2 : headerLookup cfg.reverse "Content-Type" = none) :
    headerLookup (mergedHeaders cfg orig) "Content-Type" = some "application/json" := by
  unfold mergedHeaders
  rw [headerLookup_objSpread, h1]
  show headerLookup (objSpread [("Content-Type", "application/json")] cfg) "Content-Type" = _
  rw [headerLookup_objSpread, h2]
  rfl

theorem transformOrFallback_rewritten (input : FetchInput) (i : RequestInit)
    (cfg : List (String × String)) (sys : Option String) (req : AssistantUIRequest)
    (b : BackendChatRequest) :
    (transformOrFallback input i cfg sys req).body = .jsonStringified b →
    transformOrFallback input i cfg sys req =
      ⟨input, i.method, .jsonStringified b, some (mergedHeaders cfg i.headers)⟩ := by
  intro h
  unfold transformOrFallback at h ⊢
  cases htr : transformRequestToBackendFormat req sys <;> rw [htr] at h
  · exact absurd h (by simp [fallbackCall])
  · rename_i b'
    have hb : b' = b := by simpa [rewrittenCall] using h
    subst hb
    rfl

theorem interceptedFetch_body_rewritten (ep : String) (cfg : List (String × String))
    (sys : Option String) (input : FetchInput) (i : RequestInit) (b : BackendChatRequest) :
    (interceptedFetch ep cfg sys input (some i)).body = .jsonStringified b →
    interceptedFetch ep cfg sys input (some i) =
      ⟨input, i.method, .jsonStringified b, some (mergedHeaders cfg i.headers)⟩ := by
  intro h
  cases hcond : (i.method == some "POST" && jsIncludes (inputUrl input) ep)
  · rw [show interceptedFetch ep cfg sys input (some i) =
        ⟨input, i.method, .passthrough i.body, i.headers⟩ from by
        simp [interceptedFetch, hcond]] at h
    exact absurd h (by simp)
  · have e : interceptedFetch ep cfg sys input (some i) =
        (match i.body with
         | some .formData => ⟨input, i.method, .passthrough i.body, i.headers⟩
         | some (.bstr s parsed) =>
           if s == "" then transformOrFallback input i cfg sys ⟨none, none⟩
           else
             match parsed with
             | none => fallbackCall input i cfg
             | some req => transformOrFallback input i cfg sys req
         | some (.bobj req) => transformOrFallback input i cfg sys req
         | none => transformOrFallback input i cfg sys ⟨none, none⟩) := by
      simp [interceptedFetch, hcond]
    rw [e] at h ⊢
    rcases hb : i.body with _ | (⟨s, parsed⟩ | _ | req) <;> rw [hb] at h <;>
      dsimp only at h ⊢
    · exact transformOrFallback_rewritten _ _ _ _ _ _ h
    · cases hse : (s == "") <;> rw [hse] at h
      · simp only [Bool.false_eq_true, if_false] at h ⊢
        cases hp : parsed <;> rw [hp] at h
        · exact absurd h (by simp [fallbackCall])
        · exact transformOrFallback_rewritten _ _ _ _ _ _ h
      · simp only [if_true] at h ⊢
        exact transformOrFallback_rewritten _ _ _ _ _ _ h
    · exact absurd h (by simp)
    · exact transformOrFallback_rewritten _ _ _ _ _ _ h

/-! ## Claims -/

/-- C10: `asRecord` unwraps stringified JSON recursively — a string whose
parse yields another string is parsed again until a non-string value
results — so a doubly-stringified object resolves to the inner object, and
every normalizer accepts a payload wrapped in any number of levels of JSON
string encoding. -/
theorem claim_C10_asRecord_recursive_unwrap :
    ∀ (ss : List String) (v : Value),
      asRecord (wrapJson ss v) = asRecord v
    ∧ (∀ (s : String), asRecord (.vstr s (some v)) = asRecord v)
    ∧ (∀ (s1 s2 : String) (fs : List (String × Value)),
        asRecord (.vstr s1 (some (.vstr s2 (some (.vobj fs))))) = some (.vobj fs))
    ∧ normalizeStep (wrapJson ss v) = normalizeStep v
    ∧ normalizePlan (wrapJson ss v) = normalizePlan v
    ∧ normalizeCreateResult (wrapJson ss v) = normalizeCreateResult v
    ∧ normalizeUpdateResult (wrapJson ss v) = normalizeUpdateResult v := by
  intro ss v
  refine ⟨asRecord_wrapJson ss v, fun s => rfl, fun s1 s2 fs => rfl, ?_, ?_, ?_, ?_⟩
  · simp only [normalizeStep, asRecord_wrapJson]
  · simp only [normalizePlan, asRecord_wrapJson]
  · simp only [normalizeCreateResult, asRecord_wrapJson]
  · simp only [normalizeUpdateResult, asRecord_wrapJson]

/-- C2: the cleanup returned by `createFetchInterceptor` restores the
global fetch to exactly the function captured at installation time, no
matter what is installed when it runs, and running it twice leaves that
same captured function in place. -/
theorem claim_C2_cleanup_restores_captured_fetch :
    ∀ (ep : String) (hs : List (String × String)) (sys : Option String) (w w2 : Window),
      ((createFetchInterceptor ep hs sys w).2 w2).fetch = w.fetch
    ∧ (createFetchInterceptor ep hs sys w).2 ((createFetchInterceptor ep hs sys w).2 w2) =
        (createFetchInterceptor ep hs sys w).2 w2
    ∧ ((createFetchInterceptor ep hs sys w).2 ((createFetchInterceptor ep hs sys w).2 w2)).fetch
        = w.fetch := by
  intro ep hs sys w w2
  exact ⟨rfl, rfl, rfl⟩

/-- C5: `updateStep` is a no-op — the state value is returned itself —
when no plan is set or when the update's index is negative or at least the
plan's length. -/
theorem claim_C5_updateStep_out_of_range_noop :
    ∀ (u : PlanUpdate),
      updateStep u none = none
    ∧ ∀ (p : Plan), (u.index < 0 ∨ (p.steps.length : Int) ≤ u.index) →
        updateStep u (some p) = some p := by
  intro u
  refine ⟨rfl, fun p h => ?_⟩
  have hc : (decide (u.index < 0) || decide ((p.steps.length : Int) ≤ u.index)) = true := by
    rcases h with h | h <;> simp [h]
  simp [updateStep, hc]

/-- C5 witness: a concrete out-of-range update (index 5 on a 1-step plan)
and an update against the empty store. -/
theorem claim_C5_witness :
    updateStep ⟨5, none, none⟩ none = none
    ∧ updateStep ⟨5, none, none⟩ (some ⟨[⟨"a", .pending⟩]⟩) = some ⟨[⟨"a", .pending⟩]⟩ :=
  ⟨(claim_C5_updateStep_out_of_range_noop ⟨5, none, none⟩).1,
   (claim_C5_updateStep_out_of_range_noop ⟨5, none, none⟩).2 ⟨[⟨"a", .pending⟩]⟩
     (Or.inr (by decide))⟩

/-- C3: the step and plan normalizers reject every malformed input with
`none` (the embedding has no exception channel, so they cannot throw):
non-JSON text, a non-record value, a missing or empty `description`, a
`steps` field that is absent or not an array or empty, and a `steps` array
all of whose entries fail; a produced plan never has zero steps, and the
surviving steps are exactly the entry-wise normalizations in input order
with the failures discarded. -/
theorem claim_C3_normalizers_reject_malformed :
    (∀ s : String, normalizeStep (.vstr s none) = none ∧ normalizePlan (.vstr s none) = none)
  ∧ (∀ v : Value, asRecord v = none → normalizeStep v = none ∧ normalizePlan v = none)
  ∧ (∀ v record, asRecord v = some record →
      (asString (getProp record "description") = none
        ∨ asString (getProp record "description") = some "") →
      normalizeStep v = none)
  ∧ (∀ v record, asRecord v = some record →
      (∀ xs, getProp record "steps" ≠ .varr xs) → normalizePlan v = none)
  ∧ (∀ v record, asRecord v = some record →
      getProp record "steps" = .varr [] → normalizePlan v = none)
  ∧ (∀ v record xs, asRecord v = some record → getProp record "steps" = .varr xs →
      xs.filterMap normalizeStep = [] → normalizePlan v = none)
  ∧ (∀ v p, normalizePlan v = some p → p.steps ≠ [])
  ∧ (∀ v record xs, asRecord v = some record → getProp record "steps" = .varr xs →
      xs ≠ [] → xs.filterMap normalizeStep ≠ [] →
      normalizePlan v = some ⟨xs.filterMap normalizeStep⟩) := by
  refine ⟨fun s => ⟨rfl, rfl⟩, ?_, ?_, ?_, ?_, ?_, ?_, ?_⟩
  · intro v h
    constructor <;> simp [normalizeStep, normalizePlan, h]
  · intro v record hrec hdesc
    rcases hdesc with h | h <;> simp [normalizeStep, hrec, h]
  · intro v record hrec hne
    simp only [normalizePlan, hrec]
    rcases hgp : getProp record "steps" with _ | _ | b | n | ⟨s, q⟩ | xs | fs
    · rfl
    · rfl
    · rfl
    · rfl
    · rfl
    · exact absurd hgp (hne _)
    · rfl
  · intro v record hrec hsteps
    simp [normalizePlan, hrec, hsteps]
  · intro v record xs hrec hsteps hfm
    simp only [normalizePlan, hrec, hsteps]
    cases xs with
    | nil => rfl
    | cons y ys =>
      simp [collectSteps_eq_filterMap, hfm]
  · intro v p h
    rcases hr : asRecord v with _ | record
    · simp [normalizePlan, hr] at h
    · simp only [normalizePlan, hr] at h
      rcases hgp : getProp record "steps" with _ | _ | b | n | ⟨s, pp⟩ | xs | fs <;>
        rw [hgp] at h
      case varr =>
        split at h
        · exact absurd h (by simp)
        · split at h
          · exact absurd h (by simp)
          · rename_i hne
            injection h with h
            subst h
            simpa using hne
      all_goals simp at h
  · intro v record xs hrec hsteps hxs hfm
    simp only [normalizePlan, hrec, hsteps]
    cases xs with
    | nil => exact absurd rfl hxs
    | cons y ys =>
      simp [collectSteps_eq_filterMap, hfm]

/-- C1 counterexample: the claim says the override system text wins, but
on a request carrying an override "OVR" together with an input
system-role message whose text is "SYS", the transform succeeds and
outputs `system = "SYS"`, not the override. -/
theorem claim_C1_counterexample :
    transformRequestToBackendFormat
      ⟨some [⟨"system", some [.vobj [("type", mkStr "text"), ("text", mkStr "SYS")]]⟩], none⟩
      (some "OVR")
      = some ⟨"SYS", [], []⟩
    ∧ "SYS" ≠ "OVR" := by
  constructor
  · simp [transformRequestToBackendFormat, transformLoop, systemContentOf, filterTextParts,
      mapTextOfParts, jsGet, getProp, lookupField, jsStrEq, jsTruthy, jsToString_vstr, mkStr,
      transformTools, String.join]
  · decide

/-- C1 amended: the output `system` is the concatenated text-part text of
the last system-role message whose concatenation is non-empty; only when
no such message exists does the override text apply (empty text when the
override is also absent or empty). -/
theorem claim_C1_amended_system_precedence :
    ∀ (req : AssistantUIRequest) (ov : Option String) (out : BackendChatRequest),
      transformRequestToBackendFormat req ov = some out →
      ∃ texts, sysTextsOf (req.messages.getD []) = some texts
        ∧ out.system = (texts.filter (fun t => t != "")).getLastD (ov.getD "") := by
  intro req ov out h
  simp only [transformRequestToBackendFormat] at h
  cases hl : transformLoop (req.messages.getD []) (ov.getD "") [] <;> rw [hl] at h
  · exact Option.noConfusion h
  · rename_i pr
    obtain ⟨sys, msgs⟩ := pr
    cases ht : transformTools req.tools <;> rw [ht] at h
    · exact Option.noConfusion h
    · rename_i tools
      injection h with h
      obtain ⟨texts, htx, hsys⟩ := transformLoop_system _ _ _ _ hl
      refine ⟨texts, htx, ?_⟩
      rw [← h]
      exact hsys.trans (lastNonEmptyD_eq_getLastD _ _)

/-- C1 witness for the amended claim: with an override and no system
message in the input, the output system is the override text. -/
theorem claim_C1_amended_witness :
    ∃ texts,
      sysTextsOf ((some [⟨"user", some []⟩] : Option (List AssistantUIMessage)).getD []) =
        some texts
      ∧ (⟨"OVR", [], [⟨"user", []⟩]⟩ : BackendChatRequest).system =
          (texts.filter (fun t => t != "")).getLastD ((some "OVR" : Option String).getD "") :=
  claim_C1_amended_system_precedence ⟨some [⟨"user", some []⟩], none⟩ (some "OVR")
    ⟨"OVR", [], [⟨"user", []⟩]⟩ rfl

/-- C9 counterexample: the claim says text-typed parts pass through
unchanged, but a text-typed part with no `text` field is rebuilt as
`(type := "text", text := "")`, a different part value. -/
theorem claim_C9_counterexample :
    transformRequestToBackendFormat
      ⟨some [⟨"user", some [.vobj [("type", mkStr "text")]]⟩], none⟩ none
      = some ⟨"", [], [⟨"user", [.vobj [("type", mkStr "text"), ("text", mkStr "")]]⟩]⟩
    ∧ [(⟨"user", [.vobj [("type", mkStr "text"), ("text", mkStr "")]]⟩ : BackendMessage)] ≠
        [⟨"user", [.vobj [("type", mkStr "text")]]⟩] := by
  constructor
  · rfl
  · intro heq
    simp at heq

/-- C9 amended: the output messages are exactly the input messages whose
role is `user` or `assistant`, in input order; within a kept message a
text-typed part is rebuilt as `(type := "text", text := part.text or "")`
while any part of another type is forwarded unchanged. -/
theorem claim_C9_amended_kept_messages :
    ∀ (req : AssistantUIRequest) (ov : Option String) (out : BackendChatRequest),
      transformRequestToBackendFormat req ov = some out →
      keptMessages (req.messages.getD []) = some out.messages
    ∧ out.messages.map BackendMessage.role =
        ((req.messages.getD []).filter
          (fun m => m.role == "user" || m.role == "assistant")).map AssistantUIMessage.role
    ∧ (∀ part ty, jsGet part "type" = some ty → jsStrEq ty "text" = false →
        transformContentPart part = some part)
    ∧ (∀ part ty t, jsGet part "type" = some ty → jsStrEq ty "text" = true →
        jsGet part "text" = some t →
        transformContentPart part =
          some (.vobj [("type", mkStr "text"), ("text", if jsTruthy t then t else mkStr "")])) := by
  intro req ov out h
  simp only [transformRequestToBackendFormat] at h
  cases hl : transformLoop (req.messages.getD []) (ov.getD "") [] <;> rw [hl] at h
  · exact Option.noConfusion h
  · rename_i pr
    obtain ⟨sys, msgs⟩ := pr
    cases ht : transformTools req.tools <;> rw [ht] at h
    · exact Option.noConfusion h
    · rename_i tools
      injection h with h
      obtain ⟨tail, hk, ho⟩ := transformLoop_messages _ _ _ _ hl
      simp only [List.nil_append] at ho
      have hmsgs : out.messages = tail := by rw [← h]; exact ho
      refine ⟨by rw [hmsgs]; exact hk, by rw [hmsgs]; exact keptMessages_roles _ _ hk, ?_, ?_⟩
      · intro part ty hty hne
        have e1 : transformContentPart part = Option.bind (jsGet part "type") (fun ty =>
            if jsStrEq ty "text" = true then
              Option.bind (jsGet part "text") (fun t =>
                some (.vobj [("type", mkStr "text"),
                  ("text", if jsTruthy t = true then t else mkStr "")]))
            else some part) := rfl
        rw [e1, hty, Option.some_bind', hne]
        rfl
      · intro part ty t hty htx htex
        have e1 : transformContentPart part = Option.bind (jsGet part "type") (fun ty =>
            if jsStrEq ty "text" = true then
              Option.bind (jsGet part "text") (fun t =>
                some (.vobj [("type", mkStr "text"),
                  ("text", if jsTruthy t = true then t else mkStr "")]))
            else some part) := rfl
        rw [e1, hty, Option.some_bind', htx, htex, Option.some_bind']
        rfl

/-- C9 witness for the amended claim: a request with one user message and
one tool-role message keeps exactly the user message. -/
theorem claim_C9_amended_witness :
    keptMessages [⟨"user", some []⟩, ⟨"tool", some []⟩] = some [⟨"user", []⟩]
    ∧ ([(⟨"user", []⟩ : BackendMessage)]).map BackendMessage.role = ["user"] :=
  ⟨(claim_C9_amended_kept_messages ⟨some [⟨"user", some []⟩, ⟨"tool", some []⟩], none⟩ none
      ⟨"", [], [⟨"user", []⟩]⟩ rfl).1,
   (claim_C9_amended_kept_messages ⟨some [⟨"user", some []⟩, ⟨"tool", some []⟩], none⟩ none
      ⟨"", [], [⟨"user", []⟩]⟩ rfl).2.1⟩

/-- C4 counterexample: the claim fixes the outgoing content type to JSON,
but an original call carrying `Content-Type: text/plain` keeps it — the
original headers are spread last, overriding the JSON content type, even
though this call's body was successfully rewritten. -/
theorem claim_C4_counterexample :
    (interceptedFetch "/api/chat" [] none (.str "https://x/api/chat")
        (some ⟨some "POST", some (.bstr "\x7b\x7d" (some ⟨none, none⟩)),
          some [("Content-Type", "text/plain")]⟩)).body
      = .jsonStringified ⟨"", [], []⟩
    ∧ headerLookup
        ((interceptedFetch "/api/chat" [] none (.str "https://x/api/chat")
            (some ⟨some "POST", some (.bstr "\x7b\x7d" (some ⟨none, none⟩)),
              some [("Content-Type", "text/plain")]⟩)).headers.getD [])
        "Content-Type" = some "text/plain"
    ∧ "text/plain" ≠ "application/json" := by
  refine ⟨rfl, rfl, by simp⟩

/-- C4 amended: on every intercepted call whose body is successfully
rewritten, the outgoing headers are the spread merge of the fixed JSON
content-type entry, then the adapter-configuration headers, then the
original call's headers, later entries winning on key collision; the
original call's headers take precedence, and the content type is
`application/json` only when neither the configuration nor the original
call sets a `Content-Type` key. -/
theorem claim_C4_amended_header_merge :
    ∀ (ep : String) (cfg : List (String × String)) (sys : Option String)
      (input : FetchInput) (i : RequestInit) (b : BackendChatRequest),
      (interceptedFetch ep cfg sys input (some i)).body = .jsonStringified b →
      (interceptedFetch ep cfg sys input (some i)).headers = some (mergedHeaders cfg i.headers)
    ∧ (∀ k v, headerLookup (i.headers.getD []).reverse k = some v →
        headerLookup (mergedHeaders cfg i.headers) k = some v)
    ∧ (headerLookup (i.headers.getD []).reverse "Content-Type" = none →
        headerLookup cfg.reverse "Content-Type" = none →
        headerLookup (mergedHeaders cfg i.headers) "Content-Type" = some "application/json") := by
  intro ep cfg sys input i b hbody
  refine ⟨?_, ?_, ?_⟩
  · rw [interceptedFetch_body_rewritten ep cfg sys input i b hbody]
  · intro k v h
    exact mergedHeaders_orig_wins cfg i.headers k v h
  · intro h1 h2
    exact mergedHeaders_ct_default cfg i.headers h1 h2

/-- C4 witness: a rewritten call with one configured header and one
original header gets the merged header object; the original call's
`Authorization` survives and the content type defaults to JSON. -/
theorem claim_C4_amended_witness :
    (interceptedFetch "/api/chat" [("X-Api-Key", "k")] none (.str "/api/chat")
        (some ⟨some "POST", none, some [("Authorization", "a")]⟩)).headers =
      some (mergedHeaders [("X-Api-Key", "k")] (some [("Authorization", "a")]))
    ∧ headerLookup (mergedHeaders [("X-Api-Key", "k")] (some [("Authorization", "a")]))
        "Authorization" = some "a"
    ∧ headerLookup (mergedHeaders [("X-Api-Key", "k")] (some [("Authorization", "a")]))
        "Content-Type" = some "application/json" :=
  ⟨(claim_C4_amended_header_merge "/api/chat" [("X-Api-Key", "k")] none (.str "/api/chat")
      ⟨some "POST", none, some [("Authorization", "a")]⟩ ⟨"", [], []⟩ rfl).1,
   (claim_C4_amended_header_merge "/api/chat" [("X-Api-Key", "k")] none (.str "/api/chat")
      ⟨some "POST", none, some [("Authorization", "a")]⟩ ⟨"", [], []⟩ rfl).2.1
      "Authorization" "a" rfl,
   (claim_C4_amended_header_merge "/api/chat" [("X-Api-Key", "k")] none (.str "/api/chat")
      ⟨some "POST", none, some [("Authorization", "a")]⟩ ⟨"", [], []⟩ rfl).2.2 rfl rfl⟩

/-- C3 witness: non-JSON text, an empty `steps` array, and a record with
no `description` are all rejected. -/
theorem claim_C3_witness :
    normalizeStep (.vstr "not json" none) = none
    ∧ normalizePlan (.vobj [("steps", .varr [])]) = none
    ∧ normalizeStep (.vobj [("status", mkStr "completed")]) = none :=
  ⟨(claim_C3_normalizers_reject_malformed.1 "not json").1,
   claim_C3_normalizers_reject_malformed.2.2.2.2.1
     (.vobj [("steps", .varr [])]) (.vobj [("steps", .varr [])]) rfl rfl,
   claim_C3_normalizers_reject_malformed.2.2.1
     (.vobj [("status", mkStr "completed")]) (.vobj [("status", mkStr "completed")]) rfl
     (Or.inl rfl)⟩

/-- C7: an in-range update patches exactly the step at `update.index`:
its description is replaced only when the update carries one and its
status only when the update carries one, and every other step of the
resulting plan equals its previous value. -/
theorem claim_C7_updateStep_patches_single_step :
    ∀ (p : Plan) (u : PlanUpdate) (q : Plan),
      0 ≤ u.index → u.index < (p.steps.length : Int) →
      updateStep u (some p) = some q →
      q.steps.length = p.steps.length
    ∧ (∀ i : Nat, ∀ hq : i < q.steps.length, ∀ hp : i < p.steps.length, (i : Int) ≠ u.index →
        q.steps.get ⟨i, hq⟩ = p.steps.get ⟨i, hp⟩)
    ∧ (∀ hq : u.index.toNat < q.steps.length, ∀ hp : u.index.toNat < p.steps.length,
        q.steps.get ⟨u.index.toNat, hq⟩ =
          ⟨u.description.getD (p.steps.get ⟨u.index.toNat, hp⟩).description,
           u.status.getD (p.steps.get ⟨u.index.toNat, hp⟩).status⟩) := by
  intro p u q h0 hlt heq
  have hcond : (decide (u.index < 0) || decide ((p.steps.length : Int) ≤ u.index)) = false := by
    simp [not_lt.mpr h0, not_le.mpr hlt]
  simp only [updateStep, hcond, Bool.false_eq_true, if_false, Option.some.injEq] at heq
  subst heq
  refine ⟨by simp [List.length_mapIdx], ?_, ?_⟩
  · intro i hq hp hne
    rw [List.get_mapIdx _ _ _ hp]
    simp [hne]
  · intro hq hp
    rw [List.get_mapIdx _ _ _ hp]
    simp [Int.toNat_of_nonneg h0]

/-- C7 witness: the normalized form of a string-indexed completed update
applied to a three-step plan completes step 2, keeps its description, and
leaves steps 0 and 1 unchanged. -/
theorem claim_C7_witness :
    normalizeUpdateResult (.vobj [("index", .vstr "2" none), ("status", .vstr "completed" none)]) =
      some ⟨2, none, some StepStatus.completed⟩
    ∧ ((⟨[⟨"a2", .pending⟩, ⟨"b2", .pending⟩, ⟨"c2", .completed⟩]⟩ : Plan).steps.length =
        (⟨[⟨"a2", .pending⟩, ⟨"b2", .pending⟩, ⟨"c2", .pending⟩]⟩ : Plan).steps.length
      ∧ (∀ i : Nat,
          ∀ hq : i < (⟨[⟨"a2", .pending⟩, ⟨"b2", .pending⟩, ⟨"c2", .completed⟩]⟩ : Plan).steps.length,
          ∀ hp : i < (⟨[⟨"a2", .pending⟩, ⟨"b2", .pending⟩, ⟨"c2", .pending⟩]⟩ : Plan).steps.length,
          (i : Int) ≠ (⟨2, none, some StepStatus.completed⟩ : PlanUpdate).index →
          (⟨[⟨"a2", .pending⟩, ⟨"b2", .pending⟩, ⟨"c2", .completed⟩]⟩ : Plan).steps.get ⟨i, hq⟩ =
            (⟨[⟨"a2", .pending⟩, ⟨"b2", .pending⟩, ⟨"c2", .pending⟩]⟩ : Plan).steps.get ⟨i, hp⟩)
      ∧ (∀ hq : (2 : Int).toNat <
            (⟨[⟨"a2", .pending⟩, ⟨"b2", .pending⟩, ⟨"c2", .completed⟩]⟩ : Plan).steps.length,
          ∀ hp : (2 : Int).toNat <
            (⟨[⟨"a2", .pending⟩, ⟨"b2", .pending⟩, ⟨"c2", .pending⟩]⟩ : Plan).steps.length,
          (⟨[⟨"a2", .pending⟩, ⟨"b2", .pending⟩, ⟨"c2", .completed⟩]⟩ : Plan).steps.get
              ⟨(2 : Int).toNat, hq⟩ =
            ⟨(none : Option String).getD
                ((⟨[⟨"a2", .pending⟩, ⟨"b2", .pending⟩, ⟨"c2", .pending⟩]⟩ : Plan).steps.get
                  ⟨(2 : Int).toNat, hp⟩).description,
             (some StepStatus.completed).getD
                ((⟨[⟨"a2", .pending⟩, ⟨"b2", .pending⟩, ⟨"c2", .pending⟩]⟩ : Plan).steps.get
                  ⟨(2 : Int).toNat, hp⟩).status⟩)) :=
  ⟨by simp [normalizeUpdateResult, asRecord, computeIndex, getProp, lookupField, nullishOr,
      jsToString_vstr, jsParseInt, digitsVal, asString, jsStrEq, mkStr, jsNumFinite, jsNumNeg,
      jsNumVal],
   claim_C7_updateStep_patches_single_step
     ⟨[⟨"a2", .pending⟩, ⟨"b2", .pending⟩, ⟨"c2", .pending⟩]⟩
     ⟨2, none, some StepStatus.completed⟩
     ⟨[⟨"a2", .pending⟩, ⟨"b2", .pending⟩, ⟨"c2", .completed⟩]⟩
     (by decide) (by decide) (by rfl)⟩

/-- C6: the adapter's output `tools` agrees with the tools transform: it
is empty when the input `tools` is absent, an empty array, or an object
with zero keys; a non-empty object maps entry-wise to
`(name := key, description := value.description,
parameters := value.parameters or empty object)`; a non-empty array maps
entry-wise, a bare string entry becoming a tool whose name is that
string with no description and empty parameters. -/
theorem claim_C6_tools_shape_neutrality :
    ∀ (req : AssistantUIRequest) (ov : Option String) (out : BackendChatRequest),
      transformRequestToBackendFormat req ov = some out →
      transformTools req.tools = some out.tools
    ∧ (req.tools = none → out.tools = [])
    ∧ (req.tools = some (.varr []) → out.tools = [])
    ∧ (req.tools = some (.vobj []) → out.tools = [])
    ∧ (∀ fields, fields ≠ [] → req.tools = some (.vobj fields) →
        out.tools = fields.map entryTool)
    ∧ (∀ es, es ≠ [] → req.tools = some (.varr es) → mapTools es = some out.tools)
    ∧ (∀ s p, transformTool (.vstr s p) = some ⟨.vstr s p, .vundefined, .vobj []⟩) := by
  intro req ov out h
  simp only [transformRequestToBackendFormat] at h
  cases hl : transformLoop (req.messages.getD []) (ov.getD "") [] <;> rw [hl] at h
  · exact Option.noConfusion h
  · rename_i pr
    obtain ⟨sys, msgs⟩ := pr
    cases ht : transformTools req.tools <;> rw [ht] at h
    · exact Option.noConfusion h
    · rename_i tools
      injection h with h
      have hot : out.tools = tools := by rw [← h]
      have htools : transformTools req.tools = some out.tools := by
        rw [hot]
        exact ht
      refine ⟨by rw [hot], ?_, ?_, ?_, ?_, ?_, fun s p => rfl⟩
      · intro hreq
        rw [hreq] at htools
        simpa [transformTools] using htools.symm
      · intro hreq
        rw [hreq] at htools
        simpa [transformTools] using htools.symm
      · intro hreq
        rw [hreq] at htools
        simpa [transformTools] using htools.symm
      · intro fields hne hreq
        rw [hreq] at htools
        cases fields with
        | nil => exact absurd rfl hne
        | cons f fs =>
          simp [transformTools, jsTruthy] at htools
          exact htools.symm
      · intro es hne hreq
        rw [hreq] at htools
        cases es with
        | nil => exact absurd rfl hne
        | cons e es' =>
          simpa [transformTools, jsTruthy] using htools

/-- C6 witness: the single-key object `(search := (description := "d"))`
yields exactly one tool named `search` with empty parameters, and a bare
string entry maps to a name-only tool. -/
theorem claim_C6_witness :
    transformTools (some (.vobj [("search", .vobj [("description", mkStr "d")])])) =
      some [⟨mkStr "search", mkStr "d", .vobj []⟩]
    ∧ (⟨"", [⟨mkStr "search", mkStr "d", .vobj []⟩], []⟩ : BackendChatRequest).tools =
        [("search", Value.vobj [("description", mkStr "d")])].map entryTool
    ∧ transformTool (.vstr "lookup" none) = some ⟨.vstr "lookup" none, .vundefined, .vobj []⟩ :=
  ⟨(claim_C6_tools_shape_neutrality
      ⟨none, some (.vobj [("search", .vobj [("description", mkStr "d")])])⟩ none
      ⟨"", [⟨mkStr "search", mkStr "d", .vobj []⟩], []⟩ rfl).1,
   (claim_C6_tools_shape_neutrality
      ⟨none, some (.vobj [("search", .vobj [("description", mkStr "d")])])⟩ none
      ⟨"", [⟨mkStr "search", mkStr "d", .vobj []⟩], []⟩ rfl).2.2.2.2.1
      [("search", .vobj [("description", mkStr "d")])] (by simp) rfl,
   (claim_C6_tools_shape_neutrality
      ⟨none, some (.vobj [("search", .vobj [("description", mkStr "d")])])⟩ none
      ⟨"", [⟨mkStr "search", mkStr "d", .vobj []⟩], []⟩ rfl).2.2.2.2.2.2 "lookup" none⟩

/-- C8 counterexample: the claim says the index is parsed as an integer
from a numeric field, but the source takes a numeric field as-is: the
record with index `2.5` is accepted and the produced update's index is
`2.5`, whose denominator is not `1` — not an integer. -/
theorem claim_C8_counterexample :
    normalizeUpdateResult (.vobj [("index", .vnum (.frac (mkRat 5 2)))]) =
      some ⟨(mkRat 5 2), none, none⟩
    ∧ (mkRat 5 2).den ≠ 1 := by
  refine ⟨rfl, by decide⟩

/-- C8 amended: a numeric `index` field passes through unchanged — a
finite non-integer such as `2.5` is accepted unvalidated — while a
non-numeric field is converted to text and parsed as an integer;
`normalizeUpdateResult` yields `none` exactly when the value is not a
record or that computed index is non-finite or negative; in a produced
update the index is the computed value (hence non-negative), the
description is present exactly when the record's `description` is a
string (copied verbatim), and the status is present exactly when the
record's `status` is the exact string `"completed"` or `"pending"`. -/
theorem claim_C8_amended_index_passthrough :
    ∀ v : Value,
      (asRecord v = none → normalizeUpdateResult v = none)
    ∧ (∀ record, asRecord v = some record →
        ((normalizeUpdateResult v = none) ↔
          (jsNumFinite (computeIndex record) = false ∨ jsNumNeg (computeIndex record) = true))
      ∧ (∀ n, getProp record "index" = .vnum n → computeIndex record = n)
      ∧ (∀ s p, getProp record "index" = .vstr s p → computeIndex record = jsParseInt s)
      ∧ (∀ u, normalizeUpdateResult v = some u →
          jsNumFinite (computeIndex record) = true
          ∧ jsNumNeg (computeIndex record) = false
          ∧ u.index = jsNumVal (computeIndex record)
          ∧ 0 ≤ u.index
          ∧ u.description = asString (getProp record "description")
          ∧ ((u.status = some .completed) ↔
              jsStrEq (getProp record "status") "completed" = true)
          ∧ ((u.status = some .pending) ↔
              (jsStrEq (getProp record "status") "completed" = false
                ∧ jsStrEq (getProp record "status") "pending" = true))
          ∧ ((u.status = none) ↔
              (jsStrEq (getProp record "status") "completed" = false
                ∧ jsStrEq (getProp record "status") "pending" = false)))) := by
  intro v
  constructor
  · intro h
    simp [normalizeUpdateResult, h]
  · intro record hrec
    refine ⟨?_, ?_, ?_, ?_⟩
    · rcases hci : computeIndex record with i | q | _ | _ | _
      · by_cases hi : i < 0 <;>
          simp [normalizeUpdateResult, hrec, hci, hi, jsNumFinite, jsNumNeg]
      · by_cases hq : q < 0 <;>
          simp [normalizeUpdateResult, hrec, hci, hq, jsNumFinite, jsNumNeg]
      · simp [normalizeUpdateResult, hrec, hci, jsNumFinite, jsNumNeg]
      · simp [normalizeUpdateResult, hrec, hci, jsNumFinite, jsNumNeg]
      · simp [normalizeUpdateResult, hrec, hci, jsNumFinite, jsNumNeg]
    · intro n hn
      simp [computeIndex, hn]
    · intro s p hs
      simp [computeIndex, hs, nullishOr, jsToString_vstr]
    · intro u hu
      simp only [normalizeUpdateResult, hrec] at hu
      cases hg : (!jsNumFinite (computeIndex record) || jsNumNeg (computeIndex record))
      · rw [hg] at hu
        simp only [Bool.false_eq_true, if_false] at hu
        injection hu with hu
        subst hu
        have hfin : jsNumFinite (computeIndex record) = true := by
          rcases Bool.or_eq_false_iff.mp hg with ⟨h1, h2⟩
          simpa using h1
        have hneg : jsNumNeg (computeIndex record) = false :=
          (Bool.or_eq_false_iff.mp hg).2
        refine ⟨hfin, hneg, rfl, ?_, rfl, ?_, ?_, ?_⟩
        · rcases hci : computeIndex record with i | q | _ | _ | _ <;> rw [hci] at hfin hneg
          · have hi : ¬ i < 0 := by simpa [jsNumNeg] using hneg
            simpa [jsNumVal] using Int.cast_nonneg.mpr (not_lt.mp hi)
          · have hq : ¬ q < 0 := by simpa [jsNumNeg] using hneg
            simpa [jsNumVal] using not_lt.mp hq
          · simp [jsNumFinite] at hfin
          · simp [jsNumFinite] at hfin
          · simp [jsNumFinite] at hfin
        · cases hc : jsStrEq (getProp record "status") "completed" <;>
            cases hp : jsStrEq (getProp record "status") "pending" <;> simp [hc, hp]
        · cases hc : jsStrEq (getProp record "status") "completed" <;>
            cases hp : jsStrEq (getProp record "status") "pending" <;> simp [hc, hp]
        · cases hc : jsStrEq (getProp record "status") "completed" <;>
            cases hp : jsStrEq (getProp record "status") "pending" <;> simp [hc, hp]
      · rw [hg] at hu
        simp at hu

/-- C8 witness for the amended claim: a record whose `index` field is the
number `2.5` and whose `description` is text produces an update carrying
index `2.5` (the computed value, taken as-is and non-negative) and that
description, with no status. -/
theorem claim_C8_amended_witness :
    normalizeUpdateResult
        (.vobj [("index", .vnum (.frac (mkRat 5 2))), ("description", mkStr "d8")]) =
      some ⟨(mkRat 5 2), some "d8", none⟩
    ∧ computeIndex (.vobj [("index", .vnum (.frac (mkRat 5 2))), ("description", mkStr "d8")]) =
        .frac (mkRat 5 2)
    ∧ (mkRat 5 2) = jsNumVal (computeIndex
        (.vobj [("index", .vnum (.frac (mkRat 5 2))), ("description", mkStr "d8")]))
    ∧ (0 : ℚ) ≤ (mkRat 5 2)
    ∧ (some "d8" : Option String) = asString (getProp
        (.vobj [("index", .vnum (.frac (mkRat 5 2))), ("description", mkStr "d8")])
        "description") := by
  refine ⟨rfl, ?_, ?_, ?_, ?_⟩
  · exact ((claim_C8_amended_index_passthrough
      (.vobj [("index", .vnum (.frac (mkRat 5 2))), ("description", mkStr "d8")])).2
      (.vobj [("index", .vnum (.frac (mkRat 5 2))), ("description", mkStr "d8")]) rfl).2.1
      (.frac (mkRat 5 2)) rfl
  · exact (((claim_C8_amended_index_passthrough
      (.vobj [("index", .vnum (.frac (mkRat 5 2))), ("description", mkStr "d8")])).2
      (.vobj [("index", .vnum (.frac (mkRat 5 2))), ("description", mkStr "d8")]) rfl).2.2.2
      ⟨(mkRat 5 2), some "d8", none⟩ rfl).2.2.1
  · exact (((claim_C8_amended_index_passthrough
      (.vobj [("index", .vnum (.frac (mkRat 5 2))), ("description", mkStr "d8")])).2
      (.vobj [("index", .vnum (.frac (mkRat 5 2))), ("description", mkStr "d8")]) rfl).2.2.2
      ⟨(mkRat 5 2), some "d8", none⟩ rfl).2.2.2.1
  · exact (((claim_C8_amended_index_passthrough
      (.vobj [("index", .vnum (.frac (mkRat 5 2))), ("description", mkStr "d8")])).2
      (.vobj [("index", .vnum (.frac (mkRat 5 2))), ("description", mkStr "d8")]) rfl).2.2.2
      ⟨(mkRat 5 2), some "d8", none⟩ rfl).2.2.2.2.1

end Rag
